import Mathlib

/-!
Shallow embedding of the email-scraper pipeline in `src/server.js` of the
Mail-Scraped-3000 repository, together with proofs checking the
natural-language specification's claims against it.

The embedded pieces, with their source locations:
* `emailRegex` (line 30) becomes the specialised leftmost / greedy / non
  overlapping matcher `extractEmails` (JS `String.prototype.match` with the
  `g` flag);
* `BLACKLISTED_DOMAINS` (line 33);
* `validateEmail` (lines 36-45), parameterised by a DNS oracle; the second
  component of its result records which domains were queried via
  `dns.resolveMx`;
* the per-row / per-email body of `processCSV` (lines 48-77), modelled as a
  sequential fold over the parsed rows (the event-loop interleaving of the
  async `data` handler is abstracted to the intended in-order processing);
* the fast-csv serialisation performed on the `end` event (lines 69-73) and
  the fast-csv row parser (line 54), modelled as RFC-4180 style CSV with
  `,` delimiter, `"` quote (doubled to escape), quoting exactly the fields
  that contain a delimiter, quote or row terminator, rows joined by `\n`
  and no trailing row delimiter - fast-csv's defaults as used here;
* the upload route (lines 80-89) and download route (lines 92-98).
-/

/-! ## Character classes of `emailRegex` (src/server.js line 30) -/

/-- Characters matched by `[a-zA-Z0-9._%+-]` (the local part). -/
def isLocalChar (c : Char) : Bool :=
  c.isAlpha || c.isDigit || c == '.' || c == '_' || c == '%' || c == '+' || c == '-'

/-- Characters matched by `[a-zA-Z0-9.-]` (the domain body). -/
def isDomainChar (c : Char) : Bool :=
  c.isAlpha || c.isDigit || c == '.' || c == '-'

/-! ## JS `String.prototype.split` with a one-character separator -/

/-- Models JS `s.split(sep)` for a single-character separator: the list of
maximal separator-free segments, with empty segments kept. -/
def splitOnChar (sep : Char) : List Char → List (List Char)
  | [] => [[]]
  | c :: cs =>
    if c = sep then [] :: splitOnChar sep cs
    else
      match splitOnChar sep cs with
      | g :: gs => (c :: g) :: gs
      | [] => [[c]]

/-- Models `email.split("@")[1]` from `validateEmail` (src/server.js line 38):
`none` when the string has no `'@'` (JS yields `undefined` there). -/
def jsDomainOf (email : String) : Option String :=
  ((splitOnChar '@' email.data).get? 1).map List.asString

/-! ## The regex engine specialised to `emailRegex`

`/[a-zA-Z0-9._%+-]+@[a-zA-Z0-9.-]+\.[a-zA-Z]{2,}/g` with JS semantics:
scan left to right, at each position try a greedy backtracking match, and
after a match resume scanning right after it (non-overlapping matches).
Because `'@'` is not a local-part character the `+` on the local part can
only succeed with its maximal run; the domain `+` genuinely backtracks,
which `matchDomainAux` performs by trying runs of descending length. -/

/-- Match `\.[a-zA-Z]{2,}` at the head of `cs` (greedy on the letters,
whose continuation is empty, so the maximal run is taken).
Returns the number of characters consumed. -/
def matchTldTail : List Char → Option Nat
  | c :: rest =>
    if c = '.' then
      if 2 ≤ (rest.takeWhile Char.isAlpha).length then
        some (1 + (rest.takeWhile Char.isAlpha).length)
      else none
    else none
  | [] => none

/-- Backtracking for `[a-zA-Z0-9.-]+\.[a-zA-Z]{2,}`: try a domain-body run
of length `d`, `d-1`, ... down to `1`, taking the first length whose
continuation `\.[a-zA-Z]{2,}` matches. -/
def matchDomainAux (cs : List Char) : Nat → Option Nat
  | 0 => none
  | d + 1 =>
    match matchTldTail (cs.drop (d + 1)) with
    | some t => some (d + 1 + t)
    | none => matchDomainAux cs d

/-- Match `[a-zA-Z0-9.-]+\.[a-zA-Z]{2,}` at the head of `cs` (greedy,
longest body first). Returns the number of characters consumed. -/
def matchDomain (cs : List Char) : Option Nat :=
  matchDomainAux cs (cs.takeWhile isDomainChar).length

/-- Try to match the whole `emailRegex` at the head of `cs`; returns the
match length. The local part must be its maximal run (`'@'` is not a
local-part character, so shorter runs cannot be followed by `'@'`). -/
def tryMatch (cs : List Char) : Option Nat :=
  match cs.takeWhile isLocalChar, cs.dropWhile isLocalChar with
  | [], _ => none
  | l, '@' :: rest => (matchDomain rest).map (fun d => l.length + 1 + d)
  | _, _ => none

/-- The `g`-flag scan: walk the text, emit each leftmost match, resume after
it. `fuel` bounds the recursion; every step consumes at least one character,
so `fuel = length` (as used by `extractEmails`) never runs out. -/
def scanEmailsFuel : Nat → List Char → List String
  | 0, _ => []
  | _ + 1, [] => []
  | fuel + 1, c :: cs =>
    match tryMatch (c :: cs) with
    | some k => ((c :: cs).take k).asString :: scanEmailsFuel fuel ((c :: cs).drop k)
    | none => scanEmailsFuel fuel cs

/-- Models `url.match(emailRegex) || []` (src/server.js line 59). -/
def extractEmails (s : String) : List String :=
  scanEmailsFuel s.data.length s.data

/-! ## Domain validator (src/server.js lines 33-45) -/

/-- One MX record as delivered by `dns.resolveMx`. -/
structure MxRecord where
  exchange : String
  priority : Nat
deriving DecidableEq, Repr

/-- Failure modes of `dns.resolveMx` (NXDOMAIN, timeout, network error...). -/
inductive DnsError
  | nxdomain
  | timeout
  | network
deriving DecidableEq, Repr

/-- A DNS oracle: the outcome `dns.resolveMx` would deliver per domain. -/
abbrev DnsOracle := String → Except DnsError (List MxRecord)

/-- `const BLACKLISTED_DOMAINS = new Set(["sentry.io", "example.com", "test.com"])`
(src/server.js line 33). -/
def BLACKLISTED_DOMAINS : List String := ["sentry.io", "example.com", "test.com"]

/-- The callback body `resolve(!err && addresses && addresses.length > 0)`
(src/server.js line 42): accept exactly when the lookup succeeded and
returned a non-empty record list. -/
def mxCallbackResult : Except DnsError (List MxRecord) → Bool
  | .ok addresses => decide (0 < addresses.length)
  | .error _ => false

/-- `validateEmail` (src/server.js lines 36-45). The first component is the
boolean the promise resolves with; the second lists the domains for which a
`dns.resolveMx` call was issued. `none` models the only way the promise can
fail to resolve: when `email.split("@")[1]` is `undefined` (no `'@'`),
`dns.resolveMx(undefined, ...)` throws a `TypeError`. -/
def validateEmail (dns : DnsOracle) (email : String) : Option (Bool × List String) :=
  match jsDomainOf email with
  | none => none
  | some domain =>
    if BLACKLISTED_DOMAINS.contains domain then some (false, [])
    else some (mxCallbackResult (dns domain), [domain])

/-! ## The broken membership test in `processCSV` (src/server.js line 62)

The code keeps `const emails = new Set()` and tests `!(email in emails)`.
The JS `in` operator tests *property names* of the object (own properties
plus the prototype chain), not `Set` membership: the set's elements are
never properties, so the test is insensitive to `emails.add(email)`. -/

/-- Property names visible on a `Set` instance via `in` (from
`Set.prototype` and `Object.prototype`); none of them contains `'@'`. -/
def jsSetPropNames : List String :=
  ["constructor", "has", "add", "delete", "clear", "difference", "entries",
   "forEach", "intersection", "isDisjointFrom", "isSubsetOf", "isSupersetOf",
   "keys", "size", "symmetricDifference", "union", "values",
   "hasOwnProperty", "isPrototypeOf", "propertyIsEnumerable",
   "toLocaleString", "toString", "valueOf"]

/-- Models `email in emails` where `emails` is a JS `Set` whose elements are
`elements`: the result ignores the elements entirely and only checks the
object's property names. -/
def jsInSetObject (key : String) (_elements : List String) : Bool :=
  jsSetPropNames.contains key

/-- Models JS `String.prototype.trim`: strip leading and trailing
whitespace (kernel-computable, unlike `String.trim`). -/
def jsTrim (s : String) : String :=
  (((s.data.dropWhile Char.isWhitespace).reverse.dropWhile Char.isWhitespace).reverse).asString

/-! ## The per-email and per-row body of `processCSV` (src/server.js 55-67) -/

/-- Abort caused by a thrown JS `TypeError` inside the pipeline (the
`dns.resolveMx(undefined, ...)` path); proved unreachable for extractor
outputs. -/
inductive JsAbort
  | typeError
deriving DecidableEq, Repr

/-- Pipeline state: the contents of the `emails` set and the `results`
array, in order. -/
abbrev PipeState := List String × List (String × String)

/-- The loop body
`if (!(email in emails) && await validateEmail(email)) { emails.add(email); results.push([name, email]); }`
(src/server.js lines 61-66). -/
def stepEmail (dns : DnsOracle) (name : String) (st : PipeState) (email : String) :
    Except JsAbort PipeState :=
  if jsInSetObject email st.1 then .ok st
  else
    match validateEmail dns email with
    | none => .error .typeError
    | some (true, _) => .ok (email :: st.1, st.2 ++ [(name, email)])
    | some (false, _) => .ok st

/-- The `data` handler body (src/server.js lines 55-67): rows with fewer
than two fields are skipped; otherwise both fields are trimmed and every
extracted candidate is run through `stepEmail`. -/
def stepRow (dns : DnsOracle) (st : PipeState) (row : List String) :
    Except JsAbort PipeState :=
  match row with
  | r0 :: r1 :: _ =>
    (extractEmails (jsTrim r1)).foldlM (stepEmail dns (jsTrim r0)) st
  | _ => .ok st

/-- The accepted `(name, email)` list `processCSV` resolves with, for a
given parsed row list (sequential idealisation of the event handlers). -/
def processCSV (dns : DnsOracle) (rows : List (List String)) :
    Except JsAbort (List (String × String)) :=
  Except.map Prod.snd (List.foldlM (stepRow dns) (([], []) : PipeState) rows)

/-- `path.join(UPLOAD_FOLDER, "emails.csv")` (src/server.js line 70). -/
def outputFilePath : String := "uploads/emails.csv"

/-! ## CSV serialisation (the `end` handler, src/server.js lines 69-73)

`csv.write([["Name", "Email"], ...results], { headers: true })` writes the
header row first and then one row per accepted entry, with fast-csv's
default format: `,` delimiter, rows joined by `\n`, no trailing row
delimiter, and a field is wrapped in `"` (with inner quotes doubled)
exactly when it contains a delimiter, a quote or a row-terminator
character. -/

/-- Does fast-csv quote this field? -/
def needsQuoting (f : String) : Bool :=
  f.data.any (fun c => c == ',' || c == '"' || c == '\n' || c == '\r')

/-- Double every quote character. -/
def escapeQuotes : List Char → List Char
  | [] => []
  | c :: cs => if c = '"' then '"' :: '"' :: escapeQuotes cs else c :: escapeQuotes cs

/-- Serialise one field. -/
def serializeField (f : String) : List Char :=
  if needsQuoting f then '"' :: (escapeQuotes f.data ++ ['"']) else f.data

/-- Serialise one row (fields joined by `,`). -/
def serializeRow : List String → List Char
  | [] => []
  | [f] => serializeField f
  | f :: fs => serializeField f ++ ',' :: serializeRow fs

/-- Serialise a row list (rows joined by `\n`, no trailing delimiter). -/
def csvSerializeRows : List (List String) → List Char
  | [] => []
  | [r] => serializeRow r
  | r :: rs => serializeRow r ++ '\n' :: csvSerializeRows rs

/-- The artifact content written on the `end` event: header row first, then
one row per accepted entry, in order (src/server.js line 72). The write
stream is opened with the default `w` flag, so whatever was previously at
`outputFilePath` is discarded; this function accordingly does not take the
prior content as an argument. -/
def writeResultArtifact (results : List (String × String)) : String :=
  (csvSerializeRows (["Name", "Email"] :: results.map (fun e => [e.1, e.2]))).asString

/-! ## CSV parsing (`csv.parse({ headers: false })`, src/server.js line 54) -/

/-- One-pass CSV reader. `inQ` says whether we are inside a quoted field;
`field` is the current field read so far, `row` the fields of the current
row, `rows` the completed rows. Faithful to fast-csv defaults for every
input our serialiser produces: `"` doubles inside quotes, a quote opens a
quoted field only at field start, `\n`, `\r\n` and `\r` all terminate a
row, and a trailing row delimiter does not create an empty row. -/
def csvParseAux (inQ : Bool) (field : List Char) (row : List String)
    (rows : List (List String)) : List Char → List (List String)
  | [] =>
    if inQ then rows ++ [row ++ [field.asString]]
    else if field.isEmpty && row.isEmpty then rows
    else rows ++ [row ++ [field.asString]]
  | c :: cs =>
    if inQ then
      if c = '"' then
        if cs.head? = some '"' then csvParseAux true (field ++ ['"']) row rows cs.tail
        else csvParseAux false field row rows cs
      else csvParseAux true (field ++ [c]) row rows cs
    else
      if c = ',' then csvParseAux false [] (row ++ [field.asString]) rows cs
      else if c = '\n' then csvParseAux false [] [] (rows ++ [row ++ [field.asString]]) cs
      else if c = '\r' then
        if cs.head? = some '\n' then
          csvParseAux false [] [] (rows ++ [row ++ [field.asString]]) cs.tail
        else csvParseAux false [] [] (rows ++ [row ++ [field.asString]]) cs
      else if c = '"' && field.isEmpty then csvParseAux true field row rows cs
      else csvParseAux false (field ++ [c]) row rows cs
termination_by cs => cs.length
decreasing_by all_goals simp [List.length_tail] <;> omega

/-- Parse a whole CSV document into rows of fields. -/
def csvParse (s : String) : List (List String) :=
  csvParseAux false [] [] [] s.data

/-- The Row Reader of the spec: parse the document and turn every row with
at least two fields into a trimmed `(name, text)` pair, silently dropping
shorter rows (src/server.js lines 56-58). -/
def readRows (content : String) : List (String × String) :=
  (csvParse content).filterMap (fun r =>
    match r with
    | a :: b :: _ => some (jsTrim a, jsTrim b)
    | _ => none)

/-! ## Upload and download routes (src/server.js lines 80-98) -/

/-- Abstract parse failure of the fast-csv stream (malformed framing);
`processCSV` forwards it through `.on("error", reject)`. -/
inductive CsvParseError
  | malformed
deriving DecidableEq, Repr

/-- Outcome of the artifact write (not observed by the code: the write
stream has no error listener and the promise resolves without waiting). -/
inductive WriteOutcome
  | ok
  | diskFull
  | permissionDenied
deriving DecidableEq, Repr

/-- Response of the upload route. `crashed` models an unhandled rejection
from the async `data` handler (proved unreachable). -/
inductive UploadResponse
  | success (file : String) (emails : List (String × String))
  | failure (status : Nat) (message : String)
  | crashed
deriving DecidableEq, Repr

/-- The upload route (src/server.js lines 80-89) around `processCSV`:
given the parse outcome of the uploaded file, the write outcome of the
artifact, and the prior artifact content, produce the HTTP response and
the artifact content afterwards. A parse error rejects the promise and is
answered with `500 / "Error processing file"`, leaving the artifact
untouched. On the `end` path the promise resolves with the results
*before and regardless of* the write finishing, because no error listener
is attached to the write stream - hence the response does not inspect `w`. -/
def runUpload (dns : DnsOracle) (parsed : Except CsvParseError (List (List String)))
    (w : WriteOutcome) (prior : Option String) : UploadResponse × Option String :=
  match parsed with
  | .error _ => (.failure 500 "Error processing file", prior)
  | .ok rows =>
    match processCSV dns rows with
    | .error _ => (.crashed, prior)
    | .ok results =>
      (.success outputFilePath results,
       match w with
       | .ok => some (writeResultArtifact results)
       | _ => none)

/-- Possible responses of the download route. -/
inductive HttpResponse
  | fileBody (body : String)
  | notFound (status : Nat) (message : String)
deriving DecidableEq, Repr

/-- The download route (src/server.js lines 92-98): serve whatever path the
client supplied if it exists on the filesystem, else 404 "File not found".
`fileExists` and `readFile` abstract the filesystem. -/
def downloadHandler (fileExists : String → Bool) (readFile : String → String)
    (file : String) : HttpResponse :=
  if fileExists file then .fileBody (readFile file) else .notFound 404 "File not found"

/-! ## Spec-side email patterns (refinement targets)

`specEmailPattern` transcribes the claim's words: local part over
`[a-zA-Z0-9._%+-]`, an `'@'`, a domain over `[a-zA-Z0-9.-]` ending in a
top-level label of at least two letters. `amendedEmailPattern`
additionally requires at least one domain character before the dot that
precedes the top-level label, which is what the regex actually demands. -/

/-- The label after the last `'.'` of a domain. -/
def lastLabel (cs : List Char) : List Char :=
  (cs.reverse.takeWhile (fun c => c ≠ '.')).reverse

/-- Modelled from the spec: the email shape claimed for the extractor
(claim C4 / spec §4.2), read literally. -/
def specEmailPattern (e : String) : Bool :=
  match splitOnChar '@' e.data with
  | [l, d] =>
    !l.isEmpty && l.all isLocalChar && d.all isDomainChar && d.contains '.' &&
      decide (2 ≤ (lastLabel d).length) && (lastLabel d).all Char.isAlpha
  | _ => false

/-- The amended email shape: as `specEmailPattern`, but the domain must
contain at least one character before the dot that precedes its top-level
label (`d.length ≥ (lastLabel d).length + 2`). -/
def amendedEmailPattern (e : String) : Bool :=
  match splitOnChar '@' e.data with
  | [l, d] =>
    !l.isEmpty && l.all isLocalChar && d.all isDomainChar && d.contains '.' &&
      decide (2 ≤ (lastLabel d).length) && (lastLabel d).all Char.isAlpha &&
      decide ((lastLabel d).length + 2 ≤ d.length)
  | _ => false

-- Decidable equality for `Except`, for evaluating pipeline results.
deriving instance DecidableEq for Except

/-! ## List helpers -/

/-- Taking `l₁.length + n` elements of `l₁ ++ l₂` keeps all of `l₁`. -/
theorem take_len_add {α : Type} (l₁ l₂ : List α) (n : Nat) :
    (l₁ ++ l₂).take (l₁.length + n) = l₁ ++ l₂.take n := by
  induction l₁ with
  | nil => simp
  | cons a t ih =>
    have h : (a :: t).length + n = (t.length + n) + 1 := by
      simp only [List.length_cons]; omega
    rw [h, List.cons_append, List.take_succ_cons, ih, List.cons_append]

/-- Taking exactly the `takeWhile` length recovers the `takeWhile`. -/
theorem take_takeWhile_length {α : Type} (p : α → Bool) (l : List α) :
    l.take (l.takeWhile p).length = l.takeWhile p := by
  conv_lhs => rw [← List.takeWhile_append_dropWhile (p := p) (l := l)]
  rw [List.take_append_eq_append_take]
  simp

/-- A prefix no longer than the `takeWhile` run satisfies the predicate. -/
theorem all_take_of_le_takeWhile {α : Type} {p : α → Bool} {l : List α} {m : Nat}
    (h : m ≤ (l.takeWhile p).length) : (l.take m).all p = true := by
  have h2 : l.take m = (l.takeWhile p).take m := by
    conv_lhs => rw [← List.takeWhile_append_dropWhile (p := p) (l := l)]
    rw [List.take_append_eq_append_take]
    simp [Nat.sub_eq_zero_of_le h]
  rw [h2, List.all_eq_true]
  intro x hx
  exact List.mem_takeWhile_imp (List.mem_of_mem_take hx)

/-- No element of an all-`p` list can violate `p`. -/
theorem not_mem_of_all_pred {p : Char → Bool} {l : List Char} (h : l.all p = true)
    {c : Char} (hc : p c = false) : c ∉ l := by
  rw [List.all_eq_true] at h
  intro hm
  have := h c hm
  rw [hc] at this
  exact Bool.noConfusion this

/-! ## `splitOnChar` lemmas -/

theorem splitOnChar_not_mem {sep : Char} {cs : List Char} (h : sep ∉ cs) :
    splitOnChar sep cs = [cs] := by
  induction cs with
  | nil => rfl
  | cons a t ih =>
    have ha : ¬ a = sep := fun e => h (by rw [e]; exact List.mem_cons_self _ _)
    have ht : sep ∉ t := fun m => h (List.mem_cons_of_mem _ m)
    simp [splitOnChar, ha, ih ht]

theorem splitOnChar_append {sep : Char} {l r : List Char} (h : sep ∉ l) :
    splitOnChar sep (l ++ sep :: r) = l :: splitOnChar sep r := by
  induction l with
  | nil => simp [splitOnChar]
  | cons a t ih =>
    have ha : ¬ a = sep := fun e => h (by rw [e]; exact List.mem_cons_self _ _)
    have ht : sep ∉ t := fun m => h (List.mem_cons_of_mem _ m)
    simp [splitOnChar, ha, ih ht]

/-! ## Structure of successful `emailRegex` matches -/

theorem matchTldTail_structure {cs : List Char} {t : Nat} (h : matchTldTail cs = some t) :
    ∃ tl, cs = '.' :: tl ∧ t = 1 + (tl.takeWhile Char.isAlpha).length ∧
      2 ≤ (tl.takeWhile Char.isAlpha).length := by
  match cs with
  | [] => simp [matchTldTail] at h
  | c :: tl =>
    by_cases hc : c = '.'
    · subst hc
      by_cases h2 : 2 ≤ (tl.takeWhile Char.isAlpha).length
      · simp [matchTldTail, h2] at h
        exact ⟨tl, rfl, h.symm, h2⟩
      · simp [matchTldTail, h2] at h
    · simp [matchTldTail, hc] at h

theorem matchDomainAux_structure {cs : List Char} : ∀ {bound k : Nat},
    matchDomainAux cs bound = some k →
    ∃ m t, k = m + t ∧ 1 ≤ m ∧ m ≤ bound ∧ matchTldTail (cs.drop m) = some t := by
  intro bound
  induction bound with
  | zero => intro k h; simp [matchDomainAux] at h
  | succ d ih =>
    intro k h
    cases ht : matchTldTail (cs.drop (d + 1)) with
    | some t =>
      simp [matchDomainAux, ht] at h
      exact ⟨d + 1, t, h.symm, by omega, Nat.le_refl _, ht⟩
    | none =>
      simp [matchDomainAux, ht] at h
      obtain ⟨m, t, hk, h1, h2, h3⟩ := ih h
      exact ⟨m, t, hk, h1, Nat.le_succ_of_le h2, h3⟩

theorem tryMatch_structure {cs : List Char} {k : Nat} (h : tryMatch cs = some k) :
    ∃ l dm t, cs.take k = l ++ '@' :: (dm ++ '.' :: t) ∧
      l ≠ [] ∧ l.all isLocalChar = true ∧ dm ≠ [] ∧ dm.all isDomainChar = true ∧
      t.all Char.isAlpha = true ∧ 2 ≤ t.length ∧
      k = l.length + (dm.length + t.length + 2) := by
  unfold tryMatch at h
  split at h
  · exact absurd h (by simp)
  · rename_i x lvar rest hdrop hne
    rw [Option.map_eq_some'] at h
    obtain ⟨d, hd, hk⟩ := h
    unfold matchDomain at hd
    obtain ⟨m, t, hdk, h1m, hmb, htld⟩ := matchDomainAux_structure hd
    obtain ⟨tl, hdropm, htnum, h2len⟩ := matchTldTail_structure htld
    set tw := cs.takeWhile isLocalChar with htw
    have hmlen : m < rest.length := by
      have hl := congrArg List.length hdropm
      rw [List.length_drop] at hl
      simp only [List.length_cons] at hl
      omega
    have hcs : cs = tw ++ '@' :: rest := by
      rw [htw, ← hdrop, List.takeWhile_append_dropWhile]
    have hdm : (rest.take m).length = m := by
      rw [List.length_take]; omega
    refine ⟨tw, rest.take m, tl.takeWhile Char.isAlpha, ?_, ?_, ?_, ?_, ?_, ?_, h2len, ?_⟩
    · rw [hcs, ← hk]
      have harr : tw.length + 1 + d = tw.length + (d + 1) := by omega
      rw [harr, take_len_add, List.take_succ_cons]
      congr 2
      have hrest : rest = rest.take m ++ '.' :: tl := by
        conv_lhs => rw [← List.take_append_drop m rest, hdropm]
      conv_lhs => rw [hrest]
      have hta := take_len_add (rest.take m) ('.' :: tl)
        ((tl.takeWhile Char.isAlpha).length + 1)
      rw [hdm] at hta
      have hd2 : d = m + ((tl.takeWhile Char.isAlpha).length + 1) := by omega
      rw [hd2, hta, List.take_succ_cons, take_takeWhile_length]
    · exact fun he => hne he
    · rw [htw]; exact List.all_takeWhile
    · intro he
      have := congrArg List.length he
      rw [hdm] at this
      simp at this
      omega
    · exact all_take_of_le_takeWhile hmb
    · exact List.all_takeWhile
    · rw [hdm]; omega
  · exact absurd h (by simp)

/-- A successful match consumes between 1 and `cs.length` characters. -/
theorem tryMatch_le {cs : List Char} {k : Nat} (h : tryMatch cs = some k) :
    1 ≤ k ∧ k ≤ cs.length := by
  obtain ⟨l, dm, t, htake, hl, _, _, _, _, h2, hk⟩ := tryMatch_structure h
  have hlen := congrArg List.length htake
  simp only [List.length_take, List.length_append, List.length_cons] at hlen
  omega

/-- Every string emitted by the scan is an in-place match: the text splits
as `pre ++ mid ++ post` with the emitted string being `mid` and `tryMatch`
succeeding on `mid ++ post` with exactly `mid.length` characters. -/
theorem scanEmailsFuel_sound : ∀ (fuel : Nat) (cs : List Char) (e : String),
    e ∈ scanEmailsFuel fuel cs →
    ∃ pre mid post, cs = pre ++ mid ++ post ∧ e.data = mid ∧
      tryMatch (mid ++ post) = some mid.length := by
  intro fuel
  induction fuel with
  | zero => intro cs e h; simp [scanEmailsFuel] at h
  | succ f ih =>
    intro cs e h
    match cs with
    | [] => simp [scanEmailsFuel] at h
    | c :: cs' =>
      rw [scanEmailsFuel] at h
      cases htm : tryMatch (c :: cs') with
      | none =>
        rw [htm] at h
        obtain ⟨pre, mid, post, hsp, hdata, htm2⟩ := ih cs' e h
        exact ⟨c :: pre, mid, post, by rw [hsp]; rfl, hdata, htm2⟩
      | some k =>
        rw [htm] at h
        rcases List.mem_cons.mp h with he | he
        · refine ⟨[], (c :: cs').take k, (c :: cs').drop k, ?_, ?_, ?_⟩
          · rw [List.nil_append, List.take_append_drop]
          · rw [he]; rfl
          · have hk := (tryMatch_le htm).2
            have hlen : ((c :: cs').take k).length = k := by
              rw [List.length_take]; omega
            rw [List.take_append_drop, hlen]
            exact htm
        · obtain ⟨pre, mid, post, hsp, hdata, htm2⟩ := ih _ e he
          refine ⟨(c :: cs').take k ++ pre, mid, post, ?_, hdata, htm2⟩
          have hjoin : (c :: cs').take k ++ (pre ++ mid ++ post) = c :: cs' := by
            rw [← hsp, List.take_append_drop]
          conv_lhs => rw [← hjoin]
          simp [List.append_assoc]

/-- Master structure lemma for extractor outputs: every extracted string is
a substring of the text of the shape
`local ++ '@' :: (domainBody ++ '.' :: tld)`. -/
theorem extractEmails_structure {t e : String} (h : e ∈ extractEmails t) :
    ∃ l dm tld, e.data = l ++ '@' :: (dm ++ '.' :: tld) ∧
      l ≠ [] ∧ l.all isLocalChar = true ∧ dm ≠ [] ∧ dm.all isDomainChar = true ∧
      tld.all Char.isAlpha = true ∧ 2 ≤ tld.length ∧
      ∃ pre post, t.data = pre ++ e.data ++ post := by
  obtain ⟨pre, mid, post, hsp, hdata, htm⟩ := scanEmailsFuel_sound _ _ _ h
  obtain ⟨l, dm, tld, htake, h1, h2, h3, h4, h5, h6, hk⟩ := tryMatch_structure htm
  have hmid : (mid ++ post).take mid.length = mid := by
    rw [List.take_append_eq_append_take]
    simp
  rw [hmid] at htake
  exact ⟨l, dm, tld, by rw [hdata, htake], h1, h2, h3, h4, h5, h6,
    pre, post, by rw [hdata, ← hsp]⟩

/-- The decomposition of an extracted string around its unique `'@'`. -/
theorem extractEmails_at_split {t e : String} (h : e ∈ extractEmails t) :
    ∃ l d, e.data = l ++ '@' :: d ∧ '@' ∉ l ∧ '@' ∉ d ∧ d ≠ [] ∧ l ≠ [] := by
  obtain ⟨l, dm, tld, hdata, hl, hlall, hdm, hdmall, htall, _, _⟩ :=
    extractEmails_structure h
  refine ⟨l, dm ++ '.' :: tld, hdata, ?_, ?_, by simp, hl⟩
  · exact not_mem_of_all_pred hlall (by decide)
  · intro hmem
    rcases List.mem_append.mp hmem with hmem | hmem
    · exact not_mem_of_all_pred hdmall (by decide) hmem
    · rcases List.mem_cons.mp hmem with hmem | hmem
      · exact absurd hmem (by decide)
      · exact not_mem_of_all_pred htall (by decide) hmem

/-- `email.split("@")[1]` is defined and non-empty for extracted strings. -/
theorem extractEmails_domain {t e : String} (h : e ∈ extractEmails t) :
    ∃ d : List Char, jsDomainOf e = some d.asString ∧ d ≠ [] := by
  obtain ⟨l, d, hdata, hnl, hnd, hdne, _⟩ := extractEmails_at_split h
  refine ⟨d, ?_, hdne⟩
  unfold jsDomainOf
  rw [hdata, splitOnChar_append hnl, splitOnChar_not_mem hnd]
  rfl

/-- Letters are domain-body characters. -/
theorem all_domain_of_all_alpha {l : List Char} (h : l.all Char.isAlpha = true) :
    l.all isDomainChar = true := by
  rw [List.all_eq_true] at *
  intro c hc
  have := h c hc
  simp only [isDomainChar, this, Bool.true_or]

/-- The label after the last dot of `dm ++ '.' :: tld` is `tld` when `tld`
is all letters. -/
theorem lastLabel_append {dm tld : List Char} (ht : tld.all Char.isAlpha = true) :
    lastLabel (dm ++ '.' :: tld) = tld := by
  unfold lastLabel
  rw [List.reverse_append, List.reverse_cons, List.append_assoc]
  rw [List.takeWhile_append_of_pos]
  · rw [List.singleton_append, List.takeWhile_cons_of_neg (by decide)]
    simp
  · intro a ha
    rw [List.mem_reverse] at ha
    rw [List.all_eq_true] at ht
    have := ht a ha
    simp only [decide_eq_true_eq]
    intro he
    rw [he] at this
    exact Bool.noConfusion this

/-- Every extracted string satisfies the amended spec pattern. -/
theorem amendedEmailPattern_of_extracted {t e : String} (h : e ∈ extractEmails t) :
    amendedEmailPattern e = true := by
  obtain ⟨l, dm, tld, hdata, hl, hlall, hdm, hdmall, htall, h2, _⟩ :=
    extractEmails_structure h
  have hnl : '@' ∉ l := not_mem_of_all_pred hlall (by decide)
  have hnd : '@' ∉ dm ++ '.' :: tld := by
    intro hmem
    rcases List.mem_append.mp hmem with hmem | hmem
    · exact not_mem_of_all_pred hdmall (by decide) hmem
    · rcases List.mem_cons.mp hmem with hmem | hmem
      · exact absurd hmem (by decide)
      · exact not_mem_of_all_pred htall (by decide) hmem
  unfold amendedEmailPattern
  rw [hdata, splitOnChar_append hnl, splitOnChar_not_mem hnd]
  have hlast : lastLabel (dm ++ '.' :: tld) = tld := lastLabel_append htall
  have hcont : (dm ++ '.' :: tld).contains '.' = true :=
    List.contains_iff_exists_mem_beq.mpr ⟨'.', by simp, by simp⟩
  have hdmpos : 0 < dm.length := List.length_pos.mpr hdm
  obtain ⟨a, l', rfl⟩ := List.exists_cons_of_ne_nil hl
  simp [hlast, hcont, hlall, hdmall, all_domain_of_all_alpha htall, h2,
    List.all_append, List.all_cons, List.length_append, List.length_cons,
    show isDomainChar '.' = true from by decide]
  constructor
  · exact fun x hx => (List.all_eq_true.mp htall) x hx
  · omega

/-! ## `processCSV` never rejects: every extracted candidate has a domain -/

theorem stepEmail_ok (dns : DnsOracle) (name : String) (st : PipeState) (email : String)
    (h : ∃ d, jsDomainOf email = some d) :
    ∃ st', stepEmail dns name st email = Except.ok st' := by
  by_cases hin : jsInSetObject email st.1 = true
  · exact ⟨st, by unfold stepEmail; rw [if_pos hin]⟩
  · obtain ⟨d, hd⟩ := h
    unfold stepEmail validateEmail
    rw [if_neg hin, hd]
    dsimp only
    by_cases hb : BLACKLISTED_DOMAINS.contains d = true
    · rw [if_pos hb]
      exact ⟨st, rfl⟩
    · rw [if_neg hb]
      cases hmx : mxCallbackResult (dns d)
      · exact ⟨st, rfl⟩
      · exact ⟨(email :: st.1, st.2 ++ [(name, email)]), rfl⟩

theorem foldlM_stepEmail_ok (dns : DnsOracle) (name : String) :
    ∀ es : List String, (∀ e ∈ es, ∃ d, jsDomainOf e = some d) →
    ∀ st : PipeState, ∃ st', es.foldlM (stepEmail dns name) st = Except.ok st' := by
  intro es
  induction es with
  | nil => exact fun _ st => ⟨st, rfl⟩
  | cons e es' ih =>
    intro hall st
    obtain ⟨st1, h1⟩ := stepEmail_ok dns name st e (hall e (List.mem_cons_self e es'))
    obtain ⟨st2, h2⟩ := ih (fun x hx => hall x (List.mem_cons_of_mem _ hx)) st1
    refine ⟨st2, ?_⟩
    rw [List.foldlM_cons, h1]
    exact h2

theorem stepRow_ok (dns : DnsOracle) (st : PipeState) (row : List String) :
    ∃ st', stepRow dns st row = Except.ok st' := by
  match row with
  | [] => exact ⟨st, rfl⟩
  | [a] => exact ⟨st, rfl⟩
  | r0 :: r1 :: rest =>
    show ∃ st', (extractEmails (jsTrim r1)).foldlM (stepEmail dns (jsTrim r0)) st = Except.ok st'
    apply foldlM_stepEmail_ok
    intro e he
    obtain ⟨d, hd, _⟩ := extractEmails_domain he
    exact ⟨_, hd⟩

/-- The promise of `processCSV` always resolves: the `TypeError` branch of
`validateEmail` is unreachable because extracted candidates always contain
an `'@'`. -/
theorem processCSV_ok (dns : DnsOracle) (rows : List (List String)) :
    ∃ rs, processCSV dns rows = Except.ok rs := by
  suffices h : ∀ st : PipeState, ∃ st', List.foldlM (stepRow dns) st rows = Except.ok st' by
    obtain ⟨st', hst⟩ := h ([], [])
    exact ⟨st'.2, by unfold processCSV; rw [hst]; rfl⟩
  induction rows with
  | nil => exact fun st => ⟨st, rfl⟩
  | cons r rs ih =>
    intro st
    obtain ⟨st1, h1⟩ := stepRow_ok dns st r
    obtain ⟨st2, h2⟩ := ih st1
    refine ⟨st2, ?_⟩
    rw [List.foldlM_cons, h1]
    exact h2

/-! ## CSV write / parse round trip -/

theorem data_asString (s : String) : s.data.asString = s := rfl

/-- Consuming an escaped quoted body returns to unquoted state with the
body appended to the current field (the continuation must not start with a
quote, which would read as an escaped quote). -/
theorem csvParseAux_quoted (f : List Char) :
    ∀ (field : List Char) (row : List String) (rows : List (List String)) (cs : List Char),
    cs.head? ≠ some '"' →
    csvParseAux true field row rows (escapeQuotes f ++ '"' :: cs) =
      csvParseAux false (field ++ f) row rows cs := by
  induction f with
  | nil =>
    intro field row rows cs hcs
    show csvParseAux true field row rows ('"' :: cs) = csvParseAux false (field ++ []) row rows cs
    rw [csvParseAux]
    simp [hcs]
  | cons a f' ih =>
    intro field row rows cs hcs
    by_cases ha : a = '"'
    · subst ha
      have he : escapeQuotes ('"' :: f') = '"' :: '"' :: escapeQuotes f' := by
        simp [escapeQuotes]
      rw [he, List.cons_append, List.cons_append, csvParseAux]
      simp only [List.head?_cons, List.tail_cons, if_pos rfl, reduceIte]
      rw [ih (field ++ ['"']) row rows cs hcs]
      simp
    · have he : escapeQuotes (a :: f') = a :: escapeQuotes f' := by
        simp [escapeQuotes, ha]
      rw [he, List.cons_append, csvParseAux]
      simp only [ha, reduceIte, if_true, if_false]
      rw [ih (field ++ [a]) row rows cs hcs]
      simp

/-- Consuming an unquoted run of plain characters appends it to the current
field. -/
theorem csvParseAux_plain (f : List Char)
    (hf : ∀ c ∈ f, c ≠ ',' ∧ c ≠ '\n' ∧ c ≠ '\r' ∧ c ≠ '"') :
    ∀ (field : List Char) (row : List String) (rows : List (List String)) (cs : List Char),
    csvParseAux false field row rows (f ++ cs) =
      csvParseAux false (field ++ f) row rows cs := by
  induction f with
  | nil => intro field row rows cs; simp
  | cons a f' ih =>
    intro field row rows cs
    obtain ⟨h1, h2, h3, h4⟩ := hf a (List.mem_cons_self a f')
    rw [List.cons_append, csvParseAux]
    simp only [h1, h2, h3, h4, reduceIte, if_true, if_false, Bool.false_and,
      decide_eq_false, Bool.false_eq_true]
    rw [ih (fun c hc => hf c (List.mem_cons_of_mem _ hc)) (field ++ [a]) row rows cs]
    simp

/-- Parsing one serialised field (from field-start state) loads exactly
that field's characters. -/
theorem csvParseAux_field (f : String) (row : List String) (rows : List (List String))
    (cs : List Char) (hcs : cs.head? ≠ some '"') :
    csvParseAux false [] row rows (serializeField f ++ cs) =
      csvParseAux false f.data row rows cs := by
  by_cases hq : needsQuoting f = true
  · rw [serializeField, if_pos hq]
    have hassoc : ('"' :: (escapeQuotes f.data ++ ['"'])) ++ cs =
        '"' :: (escapeQuotes f.data ++ '"' :: cs) := by
      simp
    rw [hassoc, csvParseAux]
    simp only [reduceIte, if_true, if_false, List.isEmpty_nil, Bool.and_true,
      decide_eq_true_eq]
    rw [csvParseAux_quoted f.data [] row rows cs hcs]
    simp
  · rw [serializeField, if_neg hq]
    have hq2 : needsQuoting f = false := by
      cases h : needsQuoting f
      · rfl
      · exact absurd h hq
    have hplain : ∀ c ∈ f.data, c ≠ ',' ∧ c ≠ '\n' ∧ c ≠ '\r' ∧ c ≠ '"' := by
      intro c hc
      unfold needsQuoting at hq2
      rw [List.any_eq_false] at hq2
      have := hq2 c hc
      simp only [Bool.or_eq_true, beq_iff_eq, not_or] at this
      exact ⟨this.1.1.1, this.1.2, this.2, this.1.1.2⟩
    rw [csvParseAux_plain f.data hplain [] row rows cs]
    simp

/-- Parsing a serialised row followed by a row delimiter completes the row. -/
theorem csvParseAux_row_sep (fs : List String) (hfs : fs ≠ []) :
    ∀ (row : List String) (rows : List (List String)) (cs : List Char),
    csvParseAux false [] row rows (serializeRow fs ++ '\n' :: cs) =
      csvParseAux false [] [] (rows ++ [row ++ fs]) cs := by
  induction fs with
  | nil => exact absurd rfl hfs
  | cons f fs' ih =>
    intro row rows cs
    cases fs' with
    | nil =>
      rw [show serializeRow [f] = serializeField f from rfl]
      rw [csvParseAux_field f row rows ('\n' :: cs) (by simp)]
      rw [csvParseAux]
      simp [data_asString]
    | cons g gs =>
      rw [show serializeRow (f :: g :: gs) = serializeField f ++ ',' :: serializeRow (g :: gs)
        from rfl]
      have hassoc : (serializeField f ++ ',' :: serializeRow (g :: gs)) ++ '\n' :: cs =
          serializeField f ++ ',' :: (serializeRow (g :: gs) ++ '\n' :: cs) := by
        simp
      rw [hassoc, csvParseAux_field f row rows _ (by simp)]
      rw [csvParseAux]
      simp only [reduceIte, if_true, if_false, decide_eq_true_eq]
      rw [ih (by simp) (row ++ [f.data.asString]) rows cs]
      simp [data_asString]

/-- Parsing a serialised row at the end of the document emits the row,
provided the row cannot be mistaken for the empty tail (it has at least
two fields whenever the accumulated row prefix is empty). -/
theorem csvParseAux_row_last (fs : List String) (hfs : fs ≠ []) :
    ∀ (row : List String) (rows : List (List String)), (row = [] → 2 ≤ fs.length) →
    csvParseAux false [] row rows (serializeRow fs) = rows ++ [row ++ fs] := by
  induction fs with
  | nil => exact absurd rfl hfs
  | cons f fs' ih =>
    intro row rows hne
    cases fs' with
    | nil =>
      have hrow : row ≠ [] := by
        intro he
        have := hne he
        simp at this
      rw [show serializeRow [f] = serializeField f from rfl]
      have hfe : serializeField f = serializeField f ++ [] := by simp
      rw [hfe, csvParseAux_field f row rows [] (by simp)]
      rw [csvParseAux]
      have hrowe : row.isEmpty = false := by
        cases row with
        | nil => exact absurd rfl hrow
        | cons a r => rfl
      simp [hrowe, data_asString]
    | cons g gs =>
      rw [show serializeRow (f :: g :: gs) = serializeField f ++ ',' :: serializeRow (g :: gs)
        from rfl]
      rw [csvParseAux_field f row rows _ (by simp)]
      rw [csvParseAux]
      simp only [reduceIte, if_true, if_false, decide_eq_true_eq]
      rw [ih (by simp) (row ++ [f.data.asString]) rows (by simp)]
      simp [data_asString]

/-- Parsing a serialised document recovers the rows, appended to the
accumulator (all rows have at least two fields). -/
theorem csvParseAux_serializeRows (rows : List (List String))
    (h : ∀ r ∈ rows, 2 ≤ r.length) :
    ∀ acc : List (List String),
    csvParseAux false [] [] acc (csvSerializeRows rows) = acc ++ rows := by
  induction rows with
  | nil => intro acc; simp [csvSerializeRows, csvParseAux]
  | cons r rs ih =>
    intro acc
    have hr2 : 2 ≤ r.length := h r (List.mem_cons_self r rs)
    have hrne : r ≠ [] := by
      intro he
      rw [he] at hr2
      simp at hr2
    cases rs with
    | nil =>
      rw [show csvSerializeRows [r] = serializeRow r from rfl]
      rw [csvParseAux_row_last r hrne [] acc (fun _ => hr2)]
      simp
    | cons r2 rs' =>
      rw [show csvSerializeRows (r :: r2 :: rs') =
        serializeRow r ++ '\n' :: csvSerializeRows (r2 :: rs') from rfl]
      rw [csvParseAux_row_sep r hrne [] acc (csvSerializeRows (r2 :: rs'))]
      rw [ih (fun x hx => h x (List.mem_cons_of_mem _ hx)) (acc ++ [[] ++ r])]
      simp

/-- The artifact written by the Result Writer parses back to the header
row followed by one row per accepted entry, in order. -/
theorem csvParse_writeResultArtifact (results : List (String × String)) :
    csvParse (writeResultArtifact results) =
      ["Name", "Email"] :: results.map (fun e => [e.1, e.2]) := by
  unfold csvParse writeResultArtifact
  rw [show (List.asString (csvSerializeRows
    (["Name", "Email"] :: results.map (fun e => [e.1, e.2])))).data =
    csvSerializeRows (["Name", "Email"] :: results.map (fun e => [e.1, e.2])) from rfl]
  rw [csvParseAux_serializeRows _ ?_ []]
  · simp
  · intro r hr
    rcases List.mem_cons.mp hr with he | hm
    · rw [he]; simp
    · obtain ⟨e, _, he⟩ := List.mem_map.mp hm
      rw [← he]
      simp

/-- Entry rows filter back to the entries when their fields are
trim-invariant. -/
theorem filterMap_entry_rows (l : List (String × String))
    (h : ∀ p ∈ l, jsTrim p.1 = p.1 ∧ jsTrim p.2 = p.2) :
    (l.map (fun e => [e.1, e.2])).filterMap (fun r =>
      match r with
      | a :: b :: _ => some (jsTrim a, jsTrim b)
      | _ => none) = l := by
  induction l with
  | nil => rfl
  | cons p l' ih =>
    obtain ⟨h1, h2⟩ := h p (List.mem_cons_self p l')
    simp only [List.map_cons, List.filterMap_cons]
    rw [ih (fun q hq => h q (List.mem_cons_of_mem _ hq))]
    simp [h1, h2]

/-! ## The claims -/

/-- Claim C1 (code bug): `processCSV` is supposed to deduplicate accepted
emails, but the membership test `!(email in emails)` uses the JS `in`
operator on a `Set`, which checks property names rather than elements and
is therefore always true for an extracted email. On the spec's own
scenario (blacklist not containing `foo.com`, `foo.com` resolvable) the
duplicate `alice@foo.com` is accepted a second time, contradicting the
dedup invariant and the claimed output. -/
theorem claim1_dedup_code_bug :
    processCSV (fun d => if d = "foo.com" then Except.ok [⟨"mx1.foo.com", 10⟩]
        else Except.error DnsError.nxdomain)
      [["Alice", "contact alice@foo.com"], ["Bob", "bob@foo.com and alice@foo.com again"]] =
      Except.ok [("Alice", "alice@foo.com"), ("Bob", "bob@foo.com"),
        ("Bob", "alice@foo.com")] ∧
    processCSV (fun d => if d = "foo.com" then Except.ok [⟨"mx1.foo.com", 10⟩]
        else Except.error DnsError.nxdomain)
      [["Alice", "contact alice@foo.com"], ["Bob", "bob@foo.com and alice@foo.com again"]] ≠
      Except.ok [("Alice", "alice@foo.com"), ("Bob", "bob@foo.com")] := by
  constructor
  · decide
  · decide

/-- Claim C2: a blacklisted domain short-circuits validation - the result
is `false` for every DNS oracle, and no `dns.resolveMx` call is issued
(the query list is empty). -/
theorem claim2_blacklist_short_circuit (dns : DnsOracle) (email domain : String)
    (hd : jsDomainOf email = some domain)
    (hb : BLACKLISTED_DOMAINS.contains domain = true) :
    validateEmail dns email = some (false, []) := by
  have hmem : domain ∈ BLACKLISTED_DOMAINS := by simpa using hb
  simp [validateEmail, hd, hmem]

/-- Claim C2 witness: `user@sentry.io` is rejected without a DNS call even
under an oracle that would return MX records for every domain. -/
theorem claim2_witness :
    jsDomainOf "user@sentry.io" = some "sentry.io" ∧
    BLACKLISTED_DOMAINS.contains "sentry.io" = true ∧
    validateEmail (fun _ => Except.ok [⟨"mx.sentry.io", 5⟩]) "user@sentry.io" =
      some (false, []) :=
  ⟨by decide, by decide,
   claim2_blacklist_short_circuit _ "user@sentry.io" "sentry.io" (by decide) (by decide)⟩

/-- Claim C3: for a non-blacklisted domain the validator resolves (never
aborts), issues exactly one MX lookup, accepts if and only if the lookup
returned without error and with at least one record, and rejects on every
lookup failure. -/
theorem claim3_mx_accept_iff (dns : DnsOracle) (email domain : String)
    (hd : jsDomainOf email = some domain)
    (hb : BLACKLISTED_DOMAINS.contains domain = false) :
    validateEmail dns email = some (mxCallbackResult (dns domain), [domain]) ∧
    (mxCallbackResult (dns domain) = true ↔
      ∃ recs, dns domain = Except.ok recs ∧ recs ≠ []) ∧
    (∀ err, dns domain = Except.error err → mxCallbackResult (dns domain) = false) := by
  have hnmem : domain ∉ BLACKLISTED_DOMAINS := by simpa using hb
  refine ⟨by simp [validateEmail, hd, hnmem], ?_, ?_⟩
  · cases hx : dns domain with
    | ok recs =>
      simp only [mxCallbackResult]
      constructor
      · intro hlen
        refine ⟨recs, rfl, ?_⟩
        intro he
        rw [he] at hlen
        simp at hlen
      · rintro ⟨recs', heq, hne⟩
        injection heq with heq'
        subst heq'
        simp only [decide_eq_true_eq]
        exact List.length_pos.mpr hne
    | error err =>
      simp only [mxCallbackResult]
      constructor
      · intro hfalse
        exact absurd hfalse (by simp)
      · rintro ⟨recs, heq, _⟩
        exact Except.noConfusion heq
  · intro err herr
    rw [herr]
    rfl

/-- Claim C3 witness at a concrete resolvable domain. -/
theorem claim3_witness :
    validateEmail (fun d => if d = "b.cd" then Except.ok [⟨"mx", 5⟩]
      else Except.error DnsError.timeout) "a@b.cd" = some (true, ["b.cd"]) :=
  ((claim3_mx_accept_iff (fun d => if d = "b.cd" then Except.ok [⟨"mx", 5⟩]
      else Except.error DnsError.timeout) "a@b.cd" "b.cd"
      (by decide) (by decide)).1).trans (by decide)

/-- Claim C4 counterexample: the claim describes the extractor's pattern
as local-part plus a domain of letters, digits, dots and hyphens ending in
a two-letter top-level label. The string `a@.uk` is of exactly that shape
(and is trivially a substring of the input `a@.uk`), yet the extractor
returns nothing for that input, because the regex additionally requires a
non-empty `[a-zA-Z0-9.-]+` run before the dot that precedes the top-level
label. -/
theorem claim4_counterexample :
    specEmailPattern "a@.uk" = true ∧
    ("a@.uk" : String).data = [] ++ ("a@.uk" : String).data ++ [] ∧
    extractEmails "a@.uk" = [] := by
  refine ⟨by decide, by simp, by decide⟩

/-- Claim C4 (amended): every string the extractor returns is a substring
of the text matching the amended pattern - local part over
`[a-zA-Z0-9._%+-]`, one `'@'`, a domain over `[a-zA-Z0-9.-]` that ends in
a top-level label of at least two letters preceded by a dot with at least
one domain character before it; the extractor is deterministic and the
empty input yields the empty list. -/
theorem claim4_extractor_amended :
    (∀ t : String, ∀ e ∈ extractEmails t,
      amendedEmailPattern e = true ∧ ∃ pre post, t.data = pre ++ e.data ++ post) ∧
    (∀ t : String, extractEmails t = extractEmails t) ∧
    extractEmails "" = [] := by
  refine ⟨?_, fun _ => rfl, rfl⟩
  intro t e he
  refine ⟨amendedEmailPattern_of_extracted he, ?_⟩
  obtain ⟨_, _, _, _, _, _, _, _, _, _, hsub⟩ := extractEmails_structure he
  exact hsub

/-- Claim C4 witness at a concrete extraction. -/
theorem claim4_witness :
    amendedEmailPattern "alice@foo.com" = true ∧
    ∃ pre post, ("see alice@foo.com now" : String).data =
      pre ++ ("alice@foo.com" : String).data ++ post :=
  claim4_extractor_amended.1 "see alice@foo.com now" "alice@foo.com" (by decide)

/-- Claim C5: a row with fewer than two fields leaves the pipeline state
unchanged (zero candidates, no error), and a row with at least two fields
contributes exactly the candidates extracted from its trimmed second
field, tagged with its trimmed first field. -/
theorem claim5_row_skip_and_trim (dns : DnsOracle) (st : PipeState) :
    (∀ row : List String, row.length < 2 → stepRow dns st row = Except.ok st) ∧
    (∀ (name text : String) (rest : List String),
      stepRow dns st (name :: text :: rest) =
        (extractEmails (jsTrim text)).foldlM (stepEmail dns (jsTrim name)) st) := by
  constructor
  · intro row hlen
    rcases row with _ | ⟨a, row'⟩
    · rfl
    · rcases row' with _ | ⟨b, row''⟩
      · rfl
      · exfalso
        simp only [List.length_cons] at hlen
        omega
  · intro n txt r
    rfl

/-- Claim C5 witness: a one-field row is dropped silently. -/
theorem claim5_witness :
    (["lonely"] : List String).length < 2 ∧
    stepRow (fun _ => Except.error DnsError.nxdomain) ([], []) ["lonely"] =
      Except.ok ([], []) :=
  ⟨by decide, (claim5_row_skip_and_trim _ _).1 ["lonely"] (by decide)⟩

/-- Claim C6: the Result Writer's artifact parses back to the fixed header
row followed by exactly one row per accepted entry in order; the artifact
written on a run is independent of whatever artifact existed before (full
overwrite), and the run reports the fixed artifact path. -/
theorem claim6_writer (dns : DnsOracle) (results : List (String × String))
    (rows : List (List String)) (prior prior' : Option String) :
    csvParse (writeResultArtifact results) =
      ["Name", "Email"] :: results.map (fun e => [e.1, e.2]) ∧
    (runUpload dns (Except.ok rows) WriteOutcome.ok prior).2 =
      (runUpload dns (Except.ok rows) WriteOutcome.ok prior').2 ∧
    ∃ rs, runUpload dns (Except.ok rows) WriteOutcome.ok prior =
      (UploadResponse.success outputFilePath rs, some (writeResultArtifact rs)) := by
  refine ⟨csvParse_writeResultArtifact results, ?_, ?_⟩
  · obtain ⟨rs, hrs⟩ := processCSV_ok dns rows
    unfold runUpload
    dsimp only
    rw [hrs]
  · obtain ⟨rs, hrs⟩ := processCSV_ok dns rows
    refine ⟨rs, ?_⟩
    unfold runUpload
    dsimp only
    rw [hrs]

/-- Claim C7 counterexample: a write failure (disk full) after a
successful parse is not reported - the promise has already resolved, so
the caller sees a success response, not the generic processing failure. -/
theorem claim7_counterexample :
    (runUpload (fun _ => Except.error DnsError.nxdomain)
      (Except.ok [["A", "hello"]]) WriteOutcome.diskFull (some "old")).1 =
      UploadResponse.success outputFilePath [] ∧
    (runUpload (fun _ => Except.error DnsError.nxdomain)
      (Except.ok [["A", "hello"]]) WriteOutcome.diskFull (some "old")).1 ≠
      UploadResponse.failure 500 "Error processing file" := by
  constructor
  · decide
  · decide

/-- Claim C7 (amended): a `ParseError` aborts the run, is reported as the
generic `500 / "Error processing file"` response, and leaves the prior
artifact untouched with no partial result; write errors, by contrast, are
not monitored - the response is the same whatever the write outcome. -/
theorem claim7_amended (dns : DnsOracle) :
    (∀ (e : CsvParseError) (w : WriteOutcome) (prior : Option String),
      runUpload dns (Except.error e) w prior =
        (UploadResponse.failure 500 "Error processing file", prior)) ∧
    (∀ (rows : List (List String)) (w w' : WriteOutcome) (prior : Option String),
      (runUpload dns (Except.ok rows) w prior).1 =
        (runUpload dns (Except.ok rows) w' prior).1) := by
  constructor
  · intro e w prior
    rfl
  · intro rows w w' prior
    obtain ⟨rs, hrs⟩ := processCSV_ok dns rows
    unfold runUpload
    dsimp only
    rw [hrs]

/-- Claim C8: writing accepted entries and re-reading the artifact through
the Row Reader yields the same pairs in the same order, preceded by the
header row (entries produced by the pipeline are trim-invariant, which is
the stated hypothesis). -/
theorem claim8_roundtrip (entries : List (String × String))
    (h : ∀ p ∈ entries, jsTrim p.1 = p.1 ∧ jsTrim p.2 = p.2) :
    readRows (writeResultArtifact entries) = ("Name", "Email") :: entries := by
  unfold readRows
  rw [csvParse_writeResultArtifact, List.filterMap_cons]
  rw [filterMap_entry_rows entries h]
  rfl

/-- Claim C8 witness at two concrete entries (one with an embedded comma,
exercising the quoting path). -/
theorem claim8_witness :
    readRows (writeResultArtifact [("Ann", "ann@x.io"), ("Smith, John", "j@y.zw")]) =
      ("Name", "Email") :: [("Ann", "ann@x.io"), ("Smith, John", "j@y.zw")] :=
  claim8_roundtrip [("Ann", "ann@x.io"), ("Smith, John", "j@y.zw")] (by decide)

/-- Claim C9: every extracted string contains exactly one `'@'`, so the
unguarded `email.split("@")[1]` in `validateEmail` is a defined, non-empty
domain string, and the `TypeError` (undefined-index) branch is unreachable:
`validateEmail` resolves for every DNS oracle. -/
theorem claim9_single_at (t e : String) (h : e ∈ extractEmails t) :
    e.data.count '@' = 1 ∧ (∃ d, jsDomainOf e = some d ∧ d ≠ "") ∧
    (∀ dns : DnsOracle, (validateEmail dns e).isSome = true) := by
  obtain ⟨l, d, hdata, hnl, hnd, hdne, _⟩ := extractEmails_at_split h
  refine ⟨?_, ?_, ?_⟩
  · rw [hdata, List.count_append, List.count_cons_self,
      List.count_eq_zero.mpr hnl, List.count_eq_zero.mpr hnd]
  · have hjd : jsDomainOf e = some d.asString := by
      unfold jsDomainOf
      rw [hdata, splitOnChar_append hnl, splitOnChar_not_mem hnd]
      rfl
    refine ⟨d.asString, hjd, ?_⟩
    intro he
    apply hdne
    have := congrArg String.data he
    simpa using this
  · intro dns
    obtain ⟨dl, hjd, _⟩ := extractEmails_domain h
    simp only [validateEmail, hjd]
    split <;> rfl

/-- Claim C9 witness at a concrete extraction. -/
theorem claim9_witness :
    ("alice@foo.com" : String).data.count '@' = 1 ∧
    (∃ d, jsDomainOf "alice@foo.com" = some d ∧ d ≠ "") :=
  ⟨(claim9_single_at "x alice@foo.com" "alice@foo.com" (by decide)).1,
   (claim9_single_at "x alice@foo.com" "alice@foo.com" (by decide)).2.1⟩

/-- Claim C10: the download route serves the contents of any
client-supplied path that exists on the filesystem - with no restriction
to artifacts produced by upload runs - and answers `404 / "File not
found"` exactly when the path does not exist. -/
theorem claim10_download (fileExists : String → Bool) (readFile : String → String)
    (file : String) :
    (fileExists file = true →
      downloadHandler fileExists readFile file = HttpResponse.fileBody (readFile file)) ∧
    (downloadHandler fileExists readFile file = HttpResponse.notFound 404 "File not found" ↔
      fileExists file = false) := by
  constructor
  · intro h
    simp [downloadHandler, h]
  · cases h : fileExists file <;> simp [downloadHandler, h]

/-- Claim C10 witness: an arbitrary path outside the uploads folder is
served as long as it exists. -/
theorem claim10_witness :
    downloadHandler (fun _ => true) (fun p => p ++ "!") "/etc/passwd" =
      HttpResponse.fileBody "/etc/passwd!" := by
  have h := (claim10_download (fun _ => true) (fun p => p ++ "!") "/etc/passwd").1 rfl
  rw [h]
  decide
